import Mathlib

/-!
CHIP-8 core (`Chip8.cpp`): shallow embedding and verified properties.

The machine state of `class Chip8` is a record of its member variables.  C
arrays are total maps `Nat → Nat` whose every access is bounds-checked by the
operation that performs it: an access outside the array is undefined behaviour
in C++ and makes the operation return `none`.  Stores into `unsigned char`
cells are reduced modulo 256 and stores into `unsigned short` variables modulo
65536.
-/

namespace Chip8Model

/-- Modelled from the spec: `Chip8.h` is absent; the address space is 4096 bytes. -/
def TotalMemoryBytes : Nat := 4096

/-- Modelled from the spec: `Chip8.h` is absent; there are 16 general registers. -/
def NumRegisers : Nat := 16

/-- Modelled from the spec: `Chip8.h` is absent; the call stack has 16 slots. -/
def StackSize : Nat := 16

/-- Modelled from the spec: `Chip8.h` is absent; the keypad has 16 keys. -/
def NumKeys : Nat := 16

/-- Modelled from the spec: `Chip8.h` is absent; the screen is 64 pixels wide. -/
def ScreenWidth : Nat := 64

/-- Modelled from the spec: `Chip8.h` is absent; the screen is 32 pixels high. -/
def ScreenHeight : Nat := 32

/-- Modelled from the spec: `Chip8.h` is absent; programs start at address 0x200. -/
def ProgramStart : Nat := 0x200

/-- Modelled from the spec: `Chip8.h` is absent; the program counter, the index
register, the stack slots and the stack pointer are 16-bit unsigned values. -/
def WordModulus : Nat := 65536

/-- Modulus of an `unsigned char` cell. -/
def ByteModulus : Nat := 256

/-- Member variables of `class Chip8`. -/
structure Chip8 where
  /-- Member `_memory[TotalMemoryBytes]`. -/
  memory : Nat → Nat
  /-- Member `_v[NumRegisers]`. -/
  v : Nat → Nat
  /-- Member `_i`. -/
  i : Nat
  /-- Member `_pc`. -/
  pc : Nat
  /-- Member `_gfx[ScreenWidth * ScreenHeight]`. -/
  gfx : Nat → Nat
  /-- Member `_delayTimer`. -/
  delayTimer : Nat
  /-- Member `_soundTimer`. -/
  soundTimer : Nat
  /-- Member `_stack[StackSize]`. -/
  stack : Nat → Nat
  /-- Member `_sp`. -/
  sp : Nat
  /-- Member `_keys[NumKeys]`. -/
  keys : Nat → Nat
  /-- Member `_draw`. -/
  draw : Bool

/-- Array store `a[k] = val`. -/
def setAt (a : Nat → Nat) (k val : Nat) : Nat → Nat :=
  fun j => if j = k then val else a j

/-- Loop `for (int k = 0 ; k < n ; ++k) body(k)` over a state that may fault. -/
def forLoop {σ : Type} (n : Nat) (body : Nat → σ → Option σ) (s : σ) : Option σ :=
  match n with
  | 0 => some s
  | k + 1 => (forLoop k body s).bind (body k)

/-- Method `Chip8::Register`. -/
def Register (s : Chip8) (reg : Nat) : Nat :=
  if reg ≥ NumRegisers then 0 else s.v reg

/-- Method `Chip8::Memory`. -/
def Memory (s : Chip8) (loc : Nat) : Nat :=
  if loc ≥ TotalMemoryBytes then 0 else s.memory loc

/-- Method `Chip8::Pixel`; the result is `none` when the read of `_gfx` is out of
bounds. -/
def Pixel (s : Chip8) (x y : Int) : Option Nat :=
  if x < 0 ∨ x ≥ (ScreenWidth : Int) ∨ y < 0 ∨ y > (ScreenHeight : Int) then
    some 0
  else
    let index := (ScreenHeight : Int) * y + x
    if 0 ≤ index ∧ index < ((ScreenWidth * ScreenHeight : Nat) : Int) then
      some (s.gfx index.toNat)
    else
      none

/-- Body of the inner loop of the `0xD000` case: one sprite pixel. -/
def drawPixel (x y row pixel : Nat) (col : Nat) (s : Chip8) : Option Chip8 :=
  if pixel &&& (0x80 >>> col) ≠ 0 then
    let index := x + col + (y + row) * ScreenHeight
    if index < ScreenWidth * ScreenHeight then
      let s1 := if s.gfx index ≠ 0 then { s with v := setAt s.v 0xF 1 } else s
      some { s1 with gfx := setAt s1.gfx index ((s1.gfx index ^^^ 1) % ByteModulus) }
    else
      none
  else
    some s

/-- Body of the outer loop of the `0xD000` case: one sprite row. -/
def drawRow (x y : Nat) (row : Nat) (s : Chip8) : Option Chip8 :=
  if s.i + row < TotalMemoryBytes then
    let pixel := s.memory (s.i + row)
    forLoop 8 (drawPixel x y row pixel) s
  else
    none

/-- Method `Chip8::EmulateCycle`; `none` when the cycle indexes an array out of
bounds. -/
def EmulateCycle (s0 : Chip8) : Option Chip8 :=
  let s := { s0 with draw := false }
  if s.pc + 1 < TotalMemoryBytes then
    let opCode := ((s.memory s.pc <<< 8) ||| s.memory (s.pc + 1)) % WordModulus
    if opCode &&& 0xF000 = 0x0000 then
      if opCode &&& 0x00FF = 0x000E then
        if s.sp < StackSize then
          some { s with pc := (s.stack s.sp + 2) % WordModulus,
                        sp := (s.sp + (WordModulus - 1)) % WordModulus }
        else
          none
      else
        some s
    else if opCode &&& 0xF000 = 0x2000 then
      if s.sp < StackSize then
        some { s with stack := setAt s.stack s.sp s.pc,
                      sp := (s.sp + 1) % WordModulus,
                      pc := opCode &&& 0x0FFF }
      else
        none
    else if opCode &&& 0xF000 = 0x6000 then
      let v := (opCode &&& 0x0F00) >>> 8
      let val := (opCode &&& 0x00FF) % ByteModulus
      some { s with v := setAt s.v v val, pc := (s.pc + 2) % WordModulus }
    else if opCode &&& 0xF000 = 0x8000 then
      let x := (opCode &&& 0x0F00) >>> 8
      let y := (opCode &&& 0x00F0) >>> 4
      let s1 :=
        if opCode &&& 0x000F = 0x0000 then
          { s with v := setAt s.v x (s.v y) }
        else if opCode &&& 0x000F = 0x0001 then
          { s with v := setAt s.v x ((s.v x ||| s.v y) % ByteModulus) }
        else if opCode &&& 0x000F = 0x0002 then
          { s with v := setAt s.v x ((s.v x &&& s.v y) % ByteModulus) }
        else if opCode &&& 0x000F = 0x0003 then
          { s with v := setAt s.v x ((s.v x ^^^ s.v y) % ByteModulus) }
        else if opCode &&& 0x000F = 0x0004 then
          let vf := setAt s.v 0xF (if (s.v y : Int) > 0xFF - (s.v x : Int) then 1 else 0)
          { s with v := setAt vf x ((vf x + vf y) % ByteModulus) }
        else
          s
      some { s1 with pc := (s1.pc + 2) % WordModulus }
    else if opCode &&& 0xF000 = 0xA000 then
      some { s with i := opCode &&& 0x0FFF, pc := (s.pc + 2) % WordModulus }
    else if opCode &&& 0xF000 = 0xD000 then
      let x := (opCode &&& 0x0F00) >>> 8
      let y := (opCode &&& 0x00F0) >>> 4
      let rows := opCode &&& 0x000F
      let s1 := { s with v := setAt s.v 0xF 0 }
      (forLoop rows (drawRow x y) s1).map
        (fun s2 => { s2 with pc := (s2.pc + 2) % WordModulus, draw := true })
    else if opCode &&& 0xF000 = 0xE000 then
      let x := (opCode &&& 0x0F00) >>> 8
      let s1 :=
        if opCode &&& 0x00FF = 0x009E then
          if s.keys x ≠ 0 then { s with pc := (s.pc + 2) % WordModulus } else s
        else if opCode &&& 0x00FF = 0x00A1 then
          if s.keys x = 0 then { s with pc := (s.pc + 2) % WordModulus } else s
        else
          s
      some { s1 with pc := (s1.pc + 2) % WordModulus }
    else if opCode &&& 0xF000 = 0xF000 then
      let x := (opCode &&& 0x0F00) >>> 8
      if opCode &&& 0x00FF = 0x0033 then
        if s.i + 2 < TotalMemoryBytes then
          let m1 := setAt s.memory s.i ((s.v x / 100) % ByteModulus)
          let m2 := setAt m1 (s.i + 1) (((s.v x / 10) % 10) % ByteModulus)
          let m3 := setAt m2 (s.i + 2) (((s.v x % 100) % 10) % ByteModulus)
          some { s with memory := m3, pc := (s.pc + 2) % WordModulus }
        else
          none
      else
        some { s with pc := (s.pc + 2) % WordModulus }
    else
      some s
  else
    none

/-- Modelled from the spec: `Chip8.h` is absent; a stack slot holds a 16-bit
return address, so it occupies 2 bytes. -/
def StackSlotBytes : Nat := 2

/-- Modelled from the spec: `Chip8.h` is absent; the font is 16 glyphs of 5 bytes. -/
def NumFontChars : Nat := 80

/-- Method `Chip8::Initialize`. The table `Font` of the absent `Chip8.h` is a
parameter. Each `memset` clears the number of bytes the source passes to it:
`memset(_stack, 0, StackSize)` clears `StackSize` bytes, that is the slots that
lie wholly inside the first `StackSize` bytes of `_stack`. -/
def Initialize (Font : Nat → Nat) (s : Chip8) : Chip8 :=
  let memory0 : Nat → Nat := fun a => if a < TotalMemoryBytes then 0 else s.memory a
  { memory := fun a => if a < NumFontChars then Font a else memory0 a
    v := fun r => if r < NumRegisers then 0 else s.v r
    i := 0
    pc := ProgramStart
    gfx := fun k => if k < ScreenWidth * ScreenHeight then 0 else s.gfx k
    delayTimer := 0
    soundTimer := 0
    stack := fun k => if StackSlotBytes * (k + 1) ≤ StackSize then 0 else s.stack k
    sp := 0
    keys := fun k => if k < NumKeys then 0 else s.keys k
    draw := false }

/-- Method `Chip8::ReadProgram`, reading into `memory` from address `base` on.
The file is `none` when `fopen_s` fails and its byte contents otherwise.
`fread(buffer, 1, bufferSize, file)` delivers the first `bufferSize` bytes of
the file, or all of them when there are fewer; the end-of-file indicator tested
by `feof` is set only when the file ran out before `bufferSize` bytes were
delivered. The result is the returned size and the buffer contents. -/
def ReadProgram (file : Option (List Nat)) (memory : Nat → Nat) (base bufferSize : Nat) :
    Nat × (Nat → Nat) :=
  match file with
  | none => (0, memory)
  | some bytes =>
    let read := min bytes.length bufferSize
    let memory1 : Nat → Nat :=
      fun a => if base ≤ a ∧ a < base + read then bytes.getD (a - base) 0 else memory a
    let feof : Bool := decide (bytes.length < bufferSize)
    if ¬ (feof = true) then (0, memory1)
    else if read = 0 then (0, memory1)
    else (read, memory1)

/-- Method `Chip8::LoadProgram`: the returned flag and the machine afterwards. -/
def LoadProgram (s : Chip8) (file : Option (List Nat)) : Bool × Chip8 :=
  let r := ReadProgram file s.memory ProgramStart (TotalMemoryBytes - ProgramStart)
  if r.1 = 0 then (false, { s with memory := r.2 }) else (true, { s with memory := r.2 })

/-- Opcode fetched by `EmulateCycle`: `(_memory[_pc] << 8 | _memory[_pc + 1])`. -/
def fetchOp (s : Chip8) : Nat :=
  ((s.memory s.pc <<< 8) ||| s.memory (s.pc + 1)) % WordModulus

/-- State after `n` calls of `EmulateCycle`, `none` once a cycle indexes an
array out of bounds. -/
def run (n : Nat) (s : Chip8) : Option Chip8 :=
  match n with
  | 0 => some s
  | k + 1 => (run k s).bind EmulateCycle

/-- The opcode at the program counter is a call `2NNN` with odd `NNN`. -/
def oddCall (s : Chip8) : Prop :=
  fetchOp s &&& 0xF000 = 0x2000 ∧ (fetchOp s &&& 0x0FFF) % 2 = 1

instance oddCallDecidable (s : Chip8) : Decidable (oddCall s) := by
  unfold oddCall; infer_instance

/-! ## The sprite draw: cells addressed and loop invariant -/

/-- Bit `7 - col` of sprite byte `row`, as the draw loop tests it:
`(pixel & (0x80 >> col)) != 0` with `pixel = _memory[_i + row]`. -/
def spriteBit (s : Chip8) (row col : Nat) : Prop :=
  s.memory (s.i + row) &&& (0x80 >>> col) ≠ 0

instance spriteBitDecidable (s : Chip8) (row col : Nat) : Decidable (spriteBit s row col) := by
  unfold spriteBit; infer_instance

/-- Framebuffer index the draw loop computes for sprite pixel `(row, col)`:
`x + col + (y + row) * ScreenHeight`. -/
def cellIndex (x y row col : Nat) : Nat :=
  x + col + (y + row) * ScreenHeight

/-- Cell `idx` is one the draw loop of the code writes for a set bit of the `n`-row
sprite at `I`: index `cellIndex x y row col`, computed from the opcode fields `x`
and `y`. -/
def addressed (s : Chip8) (x y n idx : Nat) : Prop :=
  ∃ row, row < n ∧ ∃ col, col < 8 ∧ (spriteBit s row col ∧ idx = cellIndex x y row col)

instance addressedDecidable (s : Chip8) (x y n idx : Nat) : Decidable (addressed s x y n idx) := by
  unfold addressed; infer_instance

/-- Cell `idx` is addressed by a set bit among the first `k` sprite pixels, counted
row by row. -/
def Done (s : Chip8) (x y k idx : Nat) : Prop :=
  ∃ row col, col < 8 ∧ row * 8 + col < k ∧ spriteBit s row col ∧ idx = cellIndex x y row col

/-- State of the draw loops after `k` sprite pixels, started from `s0` whose
addressed cells all hold `a`. -/
structure DrawInv (s0 : Chip8) (x y a k : Nat) (s : Chip8) : Prop where
  memory_eq : s.memory = s0.memory
  i_eq : s.i = s0.i
  pc_eq : s.pc = s0.pc
  stack_eq : s.stack = s0.stack
  sp_eq : s.sp = s0.sp
  v_eq : ∀ r, r ≠ 0xF → s.v r = s0.v r
  vf_set : a ≠ 0 → (∃ idx, Done s0 x y k idx) → s.v 0xF = 1
  vf_clear : (a = 0 ∨ ¬ ∃ idx, Done s0 x y k idx) → s.v 0xF = 0
  gfx_done : ∀ idx, Done s0 x y k idx → s.gfx idx = (a ^^^ 1) % ByteModulus
  gfx_rest : ∀ idx, ¬ Done s0 x y k idx → s.gfx idx = s0.gfx idx

/-- State in which the `0xD000` case enters its loops: redraw flag cleared by the
cycle, collision flag cleared by the case. -/
def drawStart (s : Chip8) : Chip8 :=
  { s with draw := false, v := setAt s.v 0xF 0 }

/-- End of the `0xD000` case: advance the program counter, raise the redraw flag. -/
def drawFinish (s : Chip8) : Chip8 :=
  { s with pc := (s.pc + 2) % WordModulus, draw := true }

/-- Members the draw loops never write. -/
def drawFrame (s0 s : Chip8) : Prop :=
  s.memory = s0.memory ∧ s.i = s0.i ∧ s.pc = s0.pc ∧ s.stack = s0.stack ∧ s.sp = s0.sp ∧
    s.keys = s0.keys ∧ s.draw = s0.draw

/-! ## Example machines -/

/-- Example machine: a machine with the given memory, registers and program
counter, every other member zero. -/
def machine (memory v : Nat → Nat) (pc : Nat) : Chip8 :=
  { memory := memory, v := v, i := 0, pc := pc, gfx := fun _ => 0,
    delayTimer := 0, soundTimer := 0, stack := fun _ => 0, sp := 0,
    keys := fun _ => 0, draw := false }

/-- Example memory: memory holding `bytes` from address `base` on, zero elsewhere. -/
def bytesAt (base : Nat) (bytes : List Nat) : Nat → Nat :=
  fun a => if base ≤ a then bytes.getD (a - base) 0 else 0

/-- Example: `60 05` at 0x200. -/
def setImmediateState : Chip8 :=
  machine (bytesAt 0x200 [0x60, 0x05]) (fun _ => 0) 0x200

/-- Example: `23 00` (call 0x300) at 0x200. -/
def callState : Chip8 :=
  machine (bytesAt 0x200 [0x23, 0x00]) (fun _ => 0) 0x200

/-- Example: `23 00` (call 0x300) at 0x200 and `00 EE` at 0x300. -/
def callReturnState : Chip8 :=
  machine (fun a => if a = 0x200 then 0x23 else if a = 0x301 then 0xEE else 0)
    (fun _ => 0) 0x200

/-- Example: `81 24` at 0x200 with V1 = 0xFF and V2 = 0x01. -/
def addCarryState : Chip8 :=
  machine (bytesAt 0x200 [0x81, 0x24]) (fun r => if r = 1 then 0xFF else if r = 2 then 1 else 0)
    0x200

/-- Example: `81 24` at 0x200 with V1 = 0x01 and V2 = 0x01. -/
def addNoCarryState : Chip8 :=
  machine (bytesAt 0x200 [0x81, 0x24]) (fun r => if r = 1 then 1 else if r = 2 then 1 else 0)
    0x200

/-- Example: the unimplemented opcode `10 00` at 0x200, followed by `60 05`. -/
def unknownOpcodeState : Chip8 :=
  machine (bytesAt 0x200 [0x10, 0x00, 0x60, 0x05]) (fun _ => 0) 0x200

/-- Example: `D1 21` at 0x200, V1 = 10, V2 = 3, I = 0x300, sprite byte 0x80. -/
def spriteState : Chip8 :=
  { machine (fun a => if a = 0x200 then 0xD1 else if a = 0x201 then 0x21
                      else if a = 0x300 then 0x80 else 0)
      (fun r => if r = 1 then 10 else if r = 2 then 3 else 0) 0x200 with i := 0x300 }

/-- Example: `D1 22` twice from 0x200, I = 0x300, sprite bytes 0x81 0x18. -/
def drawTwiceState : Chip8 :=
  { machine (fun a => if a = 0x200 then 0xD1 else if a = 0x201 then 0x22
                      else if a = 0x202 then 0xD1 else if a = 0x203 then 0x22
                      else if a = 0x300 then 0x81 else if a = 0x301 then 0x18 else 0)
      (fun r => if r = 1 then 10 else if r = 2 then 3 else 0) 0x200 with i := 0x300 }

/-- Example: `00 0E`, the byte pattern the return case is labelled with, at 0x200
on an empty stack. -/
def underflowState : Chip8 :=
  machine (bytesAt 0x200 [0x00, 0x0E]) (fun _ => 0) 0x200

/-- Example: `00 EE`, the documented return opcode, at 0x200 on an empty stack. -/
def underflowStateEE : Chip8 :=
  machine (bytesAt 0x200 [0x00, 0xEE]) (fun _ => 0) 0x200

/-- Example font table: the glyph `0` repeated. -/
def exampleFont : Nat → Nat :=
  fun a => [0xF0, 0x90, 0x90, 0x90, 0xF0].getD (a % 5) 0

/-- Example: a machine reset by `Initialize` and loaded with `program`. -/
def loaded (program : List Nat) : Chip8 :=
  (LoadProgram (Initialize exampleFont (machine (fun _ => 0) (fun _ => 0) 0)) (some program)).2

/-- Example: a program of exactly `TotalMemoryBytes - ProgramStart` bytes. -/
def fullSizeProgram : List Nat :=
  List.replicate 3584 0x60

/-- Example: a call to the odd address 0x201. -/
def oddCallProgram : List Nat :=
  [0x22, 0x01]

/-- Example: a call to 0x204 where `60 05` follows. -/
def evenCallProgram : List Nat :=
  [0x22, 0x04, 0x00, 0x00, 0x60, 0x05]

/-- Example: the byte pattern `00 0E` of the return case. -/
def returnProgram : List Nat :=
  [0x00, 0x0E]

/-- Example: sixteen nested calls, each to the next instruction, and a
seventeenth. -/
def nestedCallsProgram : List Nat :=
  [0x22, 0x02, 0x22, 0x04, 0x22, 0x06, 0x22, 0x08, 0x22, 0x0A, 0x22, 0x0C, 0x22, 0x0E,
   0x22, 0x10, 0x22, 0x12, 0x22, 0x14, 0x22, 0x16, 0x22, 0x18, 0x22, 0x1A, 0x22, 0x1C,
   0x22, 0x1E, 0x22, 0x20, 0x22, 0x22]

/-- Example: a call to the last byte of memory, 0xFFF. -/
def callLastByteProgram : List Nat :=
  [0x2F, 0xFF]

/-- Example: `AF FF` (I = 0xFFF) followed by `F0 33`. -/
def bcdAtLastByteProgram : List Nat :=
  [0xAF, 0xFF, 0xF0, 0x33]

/-- Example: `D0 01` after a reset, with a set pixel bit in the glyph at I = 0. -/
def drawProgram : List Nat :=
  [0xD0, 0x01, 0x60, 0x05]

/-- Example: `E1 9E` at 0x200 with V1 = 5, key 5 pressed and key 1 not pressed. -/
def keySkipState : Chip8 :=
  { machine (bytesAt 0x200 [0xE1, 0x9E]) (fun r => if r = 1 then 5 else 0) 0x200 with
    keys := fun k => if k = 5 then 1 else 0 }

/-- Example: `E1 A1` at 0x200 with V1 = 5, key 5 pressed and key 1 not pressed. -/
def keySkipNotState : Chip8 :=
  { machine (bytesAt 0x200 [0xE1, 0xA1]) (fun r => if r = 1 then 5 else 0) 0x200 with
    keys := fun k => if k = 5 then 1 else 0 }

/-- Example: `F3 33` at 0x200 with V3 = 254 and I = 0x300. -/
def bcdState : Chip8 :=
  { machine (bytesAt 0x200 [0xF3, 0x33]) (fun r => if r = 3 then 254 else 0) 0x200 with
    i := 0x300 }

/-- Example: `8F 04` at 0x200 with VF = 1 and V0 = 2. -/
def addIntoFlagState : Chip8 :=
  machine (bytesAt 0x200 [0x8F, 0x04]) (fun r => if r = 0xF then 1 else if r = 0 then 2 else 0)
    0x200

/-- Example: a machine whose framebuffer byte 32 alone holds 1. -/
def singleCellState : Chip8 :=
  { machine (fun _ => 0) (fun _ => 0) 0x200 with gfx := fun k => if k = 32 then 1 else 0 }

/-- Example: V1 = 10, V2 = 3, I = 0x20C, then `D1 21` three times over the sprite
byte 0x80 stored at 0x20C. -/
def collisionProgram : List Nat :=
  [0x61, 0x0A, 0x62, 0x03, 0xA2, 0x0C, 0xD1, 0x21, 0xD1, 0x21, 0xD1, 0x21, 0x80]

theorem and_shifted_mask (n a b : Nat) :
    n &&& ((2 ^ a - 1) <<< b) = ((n >>> b) % 2 ^ a) <<< b := by
  apply Nat.eq_of_testBit_eq
  intro j
  simp only [Nat.testBit_and, Nat.testBit_shiftLeft, Nat.testBit_two_pow_sub_one,
    Nat.testBit_mod_two_pow, Nat.testBit_shiftRight]
  by_cases h : b ≤ j
  · have : b + (j - b) = j := by omega
    simp [h, this, Bool.and_comm]
  · simp [h]

theorem and_F000 (n : Nat) : n &&& 0xF000 = (n / 4096 % 16) * 4096 := by
  have h := and_shifted_mask n 4 12
  simpa [Nat.shiftLeft_eq, Nat.shiftRight_eq_div_pow] using h

theorem and_0F00_shift (n : Nat) : (n &&& 0x0F00) >>> 8 = n / 256 % 16 := by
  have h := and_shifted_mask n 4 8
  have h2 : n &&& 0x0F00 = (n / 256 % 16) * 256 := by
    simpa [Nat.shiftLeft_eq, Nat.shiftRight_eq_div_pow] using h
  rw [h2, Nat.shiftRight_eq_div_pow]
  omega

theorem and_00F0_shift (n : Nat) : (n &&& 0x00F0) >>> 4 = n / 16 % 16 := by
  have h := and_shifted_mask n 4 4
  have h2 : n &&& 0x00F0 = (n / 16 % 16) * 16 := by
    simpa [Nat.shiftLeft_eq, Nat.shiftRight_eq_div_pow] using h
  rw [h2, Nat.shiftRight_eq_div_pow]
  omega

theorem and_00FF (n : Nat) : n &&& 0x00FF = n % 256 :=
  Nat.and_pow_two_sub_one_eq_mod n 8

theorem and_0FFF (n : Nat) : n &&& 0x0FFF = n % 4096 :=
  Nat.and_pow_two_sub_one_eq_mod n 12

theorem and_000F (n : Nat) : n &&& 0x000F = n % 16 :=
  Nat.and_pow_two_sub_one_eq_mod n 4

theorem fetch_word (hi lo : Nat) (hhi : hi < 256) (hlo : lo < 256) :
    ((hi <<< 8) ||| lo) % WordModulus = hi * 256 + lo := by
  have h := Nat.mul_add_lt_is_or (i := 8) (b := lo) (by simpa using hlo) hi
  rw [Nat.shiftLeft_eq, Nat.mul_comm hi (2 ^ 8), ← h]
  simp only [WordModulus]
  omega

/-! ## Single instructions -/

/-- C1: set-immediate (6XNN). With the bytes at PC and PC+1 (both below 4096)
forming 6XNN, one cycle leaves VX equal to NN, every other general register, the
index register, the stack, the stack pointer, memory and the framebuffer
unchanged, and the program counter advanced by 2. -/
theorem set_immediate_step (s : Chip8) (x nn : Nat) (hx : x < 16) (hnn : nn < 256)
    (hpc : s.pc + 1 < 4096) (hhi : s.memory s.pc = 0x60 + x)
    (hlo : s.memory (s.pc + 1) = nn) :
    ∃ t, EmulateCycle s = some t ∧ t.v x = nn ∧ (∀ r, r ≠ x → t.v r = s.v r) ∧
      t.i = s.i ∧ t.stack = s.stack ∧ t.sp = s.sp ∧ t.memory = s.memory ∧
      t.gfx = s.gfx ∧ t.pc = s.pc + 2 := by
  have hw : ((s.memory s.pc <<< 8) ||| s.memory (s.pc + 1)) % WordModulus
      = (0x60 + x) * 256 + nn := by
    rw [hhi, hlo]; exact fetch_word _ _ (by omega) hnn
  have e1 : ((0x60 + x) * 256 + nn) &&& 0xF000 = 0x6000 := by rw [and_F000]; omega
  have e2 : (((0x60 + x) * 256 + nn) &&& 0x0F00) >>> 8 = x := by rw [and_0F00_shift]; omega
  have e3 : ((0x60 + x) * 256 + nn) &&& 0x00FF = nn := by rw [and_00FF]; omega
  have hpc2 : (s.pc + 2) % WordModulus = s.pc + 2 := by
    simp only [WordModulus]; omega
  refine ⟨{ s with draw := false, v := setAt s.v x nn, pc := s.pc + 2 }, ?_, ?_⟩
  · simp only [EmulateCycle, TotalMemoryBytes, hpc, hw, e1, e2, e3, hpc2, if_true]
    simp [ByteModulus, Nat.mod_eq_of_lt hnn]
  · simp [setAt]
    intro r hr; simp [hr]

/-- C1 at the bytes `60 05` placed at 0x200: V0 becomes 5 and the program counter
0x202. -/
theorem set_immediate_step_witness :
    ∃ t, EmulateCycle setImmediateState = some t ∧ t.v 0 = 5 ∧ t.pc = 0x202 :=
  match set_immediate_step setImmediateState 0 5 (by decide) (by decide) (by decide)
      (by decide) (by decide) with
  | ⟨t, h, hv, _, _, _, _, _, _, hp⟩ => ⟨t, h, hv, hp⟩

/-- C2: subroutine call (2NNN). With stack pointer sp below 16, one cycle stores
the old program counter in stack slot sp, makes the stack pointer sp + 1 and
sets the program counter to NNN with no further advance; registers, index
register, memory and framebuffer are unchanged. -/
theorem call_step (s : Chip8) (nnn : Nat) (hn : nnn < 4096)
    (hpc : s.pc + 1 < 4096) (hsp : s.sp < 16)
    (hhi : s.memory s.pc = 0x20 + nnn / 256)
    (hlo : s.memory (s.pc + 1) = nnn % 256) :
    ∃ t, EmulateCycle s = some t ∧ t.stack s.sp = s.pc ∧
      (∀ k, k ≠ s.sp → t.stack k = s.stack k) ∧ t.sp = s.sp + 1 ∧ t.pc = nnn ∧
      t.v = s.v ∧ t.i = s.i ∧ t.memory = s.memory ∧ t.gfx = s.gfx := by
  have hw : ((s.memory s.pc <<< 8) ||| s.memory (s.pc + 1)) % WordModulus
      = (0x20 + nnn / 256) * 256 + nnn % 256 := by
    rw [hhi, hlo]; exact fetch_word _ _ (by omega) (by omega)
  have e1 : ((0x20 + nnn / 256) * 256 + nnn % 256) &&& 0xF000 = 0x2000 := by
    rw [and_F000]; omega
  have e2 : ((0x20 + nnn / 256) * 256 + nnn % 256) &&& 0x0FFF = nnn := by
    rw [and_0FFF]; omega
  have hsp2 : (s.sp + 1) % WordModulus = s.sp + 1 := by
    simp only [WordModulus]; omega
  refine ⟨{ s with draw := false, stack := setAt s.stack s.sp s.pc, sp := s.sp + 1,
                   pc := nnn }, ?_, ?_⟩
  · simp only [EmulateCycle, TotalMemoryBytes, StackSize, hpc, hsp, hw, e1, e2, hsp2, if_true]
    simp
  · simp [setAt]
    intro k hk; simp [hk]

/-- C2 at the bytes `23 00` placed at 0x200: the program counter becomes 0x300
and the stack has depth 1 with 0x200 in slot 0. -/
theorem call_step_witness :
    ∃ t, EmulateCycle callState = some t ∧ t.pc = 0x300 ∧ t.sp = 1 ∧ t.stack 0 = 0x200 :=
  match call_step callState 0x300 (by decide) (by decide) (by decide) (by decide)
      (by decide) with
  | ⟨t, h, hs, _, hsp, hp, _, _, _, _⟩ => ⟨t, h, hp, hsp, hs⟩

/-- C3, evaluated on the code: call 0x300 at 0x200 followed by `00 EE` at 0x300.
The second cycle does not return: `0x00EE & 0x00FF` is `0xEE`, which the case
label `0x000E` does not match, so the program counter stays at 0x300 and the
stack pointer at 1 instead of 0x202 and 0. -/
theorem call_then_return_stuck :
    ((EmulateCycle callReturnState).bind EmulateCycle).map (fun t => (t.pc, t.sp))
      = some (0x300, 1) := by
  decide

/-- C4: add-with-carry (8XY4) with x and y both different from 0xF. One cycle
leaves VX equal to (VX + VY) mod 256, register 0xF equal to 1 when VX + VY
exceeds 255 and 0 otherwise, and the program counter advanced by 2. -/
theorem add_carry_step (s : Chip8) (x y : Nat) (hx : x < 16) (hy : y < 16)
    (hxF : x ≠ 0xF) (hyF : y ≠ 0xF) (hpc : s.pc + 1 < 4096)
    (hhi : s.memory s.pc = 0x80 + x) (hlo : s.memory (s.pc + 1) = y * 16 + 4) :
    ∃ t, EmulateCycle s = some t ∧ t.v x = (s.v x + s.v y) % 256 ∧
      t.v 0xF = (if s.v x + s.v y > 255 then 1 else 0) ∧ t.pc = s.pc + 2 := by
  have hw : ((s.memory s.pc <<< 8) ||| s.memory (s.pc + 1)) % WordModulus
      = (0x80 + x) * 256 + (y * 16 + 4) := by
    rw [hhi, hlo]; exact fetch_word _ _ (by omega) (by omega)
  have e1 : ((0x80 + x) * 256 + (y * 16 + 4)) &&& 0xF000 = 0x8000 := by
    rw [and_F000]; omega
  have e2 : (((0x80 + x) * 256 + (y * 16 + 4)) &&& 0x0F00) >>> 8 = x := by
    rw [and_0F00_shift]; omega
  have e3 : (((0x80 + x) * 256 + (y * 16 + 4)) &&& 0x00F0) >>> 4 = y := by
    rw [and_00F0_shift]; omega
  have e4 : ((0x80 + x) * 256 + (y * 16 + 4)) &&& 0x000F = 4 := by
    rw [and_000F]; omega
  have hpc2 : (s.pc + 2) % WordModulus = s.pc + 2 := by
    simp only [WordModulus]; omega
  have hflag : (if (s.v y : Int) > 0xFF - (s.v x : Int) then 1 else 0)
      = (if s.v x + s.v y > 255 then 1 else 0) := by
    by_cases h : s.v x + s.v y > 255
    · rw [if_pos h, if_pos (by omega)]
    · rw [if_neg h, if_neg (by omega)]
  refine ⟨{ s with draw := false,
                   v := setAt (setAt s.v 0xF (if s.v x + s.v y > 255 then 1 else 0)) x
                          ((s.v x + s.v y) % 256),
                   pc := s.pc + 2 }, ?_, ?_⟩
  · simp only [EmulateCycle, TotalMemoryBytes, hpc, hw, e1, e2, e3, e4, hpc2, hflag, if_true]
    simp [ByteModulus, setAt, hxF, hyF, hpc2]
  · simp [setAt, hxF, Ne.symm hxF]

/-- C4 at `81 24` with V1 = 0xFF, V2 = 0x01 (result 0x00, flag 1) and with
V1 = 0x01, V2 = 0x01 (result 0x02, flag 0). -/
theorem add_carry_step_witness :
    (∃ t, EmulateCycle addCarryState = some t ∧ t.v 1 = 0x00 ∧ t.v 0xF = 1 ∧ t.pc = 0x202) ∧
    (∃ t, EmulateCycle addNoCarryState = some t ∧ t.v 1 = 0x02 ∧ t.v 0xF = 0 ∧ t.pc = 0x202) :=
  ⟨add_carry_step addCarryState 1 2 (by decide) (by decide) (by decide) (by decide)
      (by decide) (by decide) (by decide),
   add_carry_step addNoCarryState 1 2 (by decide) (by decide) (by decide) (by decide)
      (by decide) (by decide) (by decide)⟩

/-- C5, evaluated on the code: the opcode `10 00`, which no case implements, at
0x200 followed by `60 05`. The top-level default case leaves the program counter
at 0x200; a second cycle fetches the same opcode again, so the instruction two
bytes further on is never executed (V0 stays 0). -/
theorem unknown_opcode_stuck :
    (EmulateCycle unknownOpcodeState).map (fun t => t.pc) = some 0x200 ∧
    ((EmulateCycle unknownOpcodeState).bind EmulateCycle).map (fun t => (t.pc, t.v 0))
      = some (0x200, 0) := by
  decide

/-! ## Sprite draw -/

/-- C6, evaluated on the code: `D1 21` with V1 = 10, V2 = 3, I = 0x300 and sprite
byte 0x80. The cell at column 10, row 3 (index 3 * 64 + 10 = 202 in the 64-wide
grid, 3 * 32 + 10 = 106 with the stride `Pixel` uses) is left clear; the cycle
flips cell 1 + 2 * 32 = 65, computed from the register numbers 1 and 2. -/
theorem draw_uses_register_numbers :
    (EmulateCycle spriteState).map (fun t => (t.gfx 202, t.gfx 106, t.gfx 65))
      = some (0, 0, 1) := by
  decide

/-! ### Loop invariant of the draw -/

theorem done_succ (s0 : Chip8) (x y r c idx : Nat) (hc : c < 8) :
    Done s0 x y (r * 8 + c + 1) idx ↔
      Done s0 x y (r * 8 + c) idx ∨ (spriteBit s0 r c ∧ idx = cellIndex x y r c) := by
  constructor
  · rintro ⟨row, col, hcol, hlt, hbit, hidx⟩
    by_cases h : row * 8 + col < r * 8 + c
    · exact Or.inl ⟨row, col, hcol, h, hbit, hidx⟩
    · have hr : row = r := by omega
      have hcc : col = c := by omega
      subst hr; subst hcc
      exact Or.inr ⟨hbit, hidx⟩
  · rintro (⟨row, col, hcol, hlt, hbit, hidx⟩ | ⟨hbit, hidx⟩)
    · exact ⟨row, col, hcol, by omega, hbit, hidx⟩
    · exact ⟨r, c, hc, by omega, hbit, hidx⟩

theorem not_done_current (s0 : Chip8) (x y r c : Nat) (hc : c < 8) :
    ¬ Done s0 x y (r * 8 + c) (cellIndex x y r c) := by
  rintro ⟨row, col, hcol, hlt, _, hidx⟩
  simp only [cellIndex, ScreenHeight] at hidx
  omega

theorem drawPixel_inv (s0 s : Chip8) (x y n a r c : Nat) (hx : x < 16) (hy : y < 16)
    (hn : n < 16) (hr : r < n) (hc : c < 8)
    (ha : ∀ idx, Done s0 x y (n * 8) idx → s0.gfx idx = a)
    (hinv : DrawInv s0 x y a (r * 8 + c) s) :
    ∃ s', drawPixel x y r (s0.memory (s0.i + r)) c s = some s' ∧
      DrawInv s0 x y a (r * 8 + c + 1) s' := by
  by_cases hbit : spriteBit s0 r c
  · have hbit' : s0.memory (s0.i + r) &&& (0x80 >>> c) ≠ 0 := hbit
    have hidx : x + c + (y + r) * ScreenHeight < ScreenWidth * ScreenHeight := by
      simp only [ScreenHeight, ScreenWidth]; omega
    have hcur : s.gfx (cellIndex x y r c) = a := by
      rw [hinv.gfx_rest _ (not_done_current s0 x y r c hc)]
      exact ha _ ⟨r, c, hc, by omega, hbit, rfl⟩
    have hcur' : s.gfx (x + c + (y + r) * ScreenHeight) = a := hcur
    by_cases ha0 : a = 0
    · refine ⟨{ s with gfx := setAt s.gfx (cellIndex x y r c) ((a ^^^ 1) % ByteModulus) }, ?_, ?_⟩
      · simp only [drawPixel, if_pos hbit', if_pos hidx]
        simp [cellIndex, hcur', ha0]
      · refine ⟨hinv.memory_eq, hinv.i_eq, hinv.pc_eq, hinv.stack_eq, hinv.sp_eq, hinv.v_eq,
          fun h => absurd ha0 h, fun _ => hinv.vf_clear (Or.inl ha0), ?_, ?_⟩
        · intro idx hd
          rcases (done_succ s0 x y r c idx hc).1 hd with h | ⟨_, h⟩
          · have hne : idx ≠ cellIndex x y r c := by
              rintro rfl; exact not_done_current s0 x y r c hc h
            simp only [setAt, if_neg hne]
            exact hinv.gfx_done idx h
          · simp [setAt, h]
        · intro idx hd
          have h1 : ¬ Done s0 x y (r * 8 + c) idx := fun h =>
            hd ((done_succ s0 x y r c idx hc).2 (Or.inl h))
          have hne : idx ≠ cellIndex x y r c := fun h =>
            hd ((done_succ s0 x y r c idx hc).2 (Or.inr ⟨hbit, h⟩))
          simp only [setAt, if_neg hne]
          exact hinv.gfx_rest idx h1
    · refine ⟨{ s with v := setAt s.v 0xF 1,
                       gfx := setAt s.gfx (cellIndex x y r c) ((a ^^^ 1) % ByteModulus) }, ?_, ?_⟩
      · simp only [drawPixel, if_pos hbit', if_pos hidx]
        simp [cellIndex, ha0, hcur']
      · refine ⟨hinv.memory_eq, hinv.i_eq, hinv.pc_eq, hinv.stack_eq, hinv.sp_eq, ?_,
          fun _ _ => by simp [setAt], ?_, ?_, ?_⟩
        · intro k hk
          simp only [setAt, if_neg hk]
          exact hinv.v_eq k hk
        · rintro (h | h)
          · exact absurd h ha0
          · exact absurd ⟨_, (done_succ s0 x y r c _ hc).2 (Or.inr ⟨hbit, rfl⟩)⟩ h
        · intro idx hd
          rcases (done_succ s0 x y r c idx hc).1 hd with h | ⟨_, h⟩
          · have hne : idx ≠ cellIndex x y r c := by
              rintro rfl; exact not_done_current s0 x y r c hc h
            simp only [setAt, if_neg hne]
            exact hinv.gfx_done idx h
          · simp [setAt, h]
        · intro idx hd
          have h1 : ¬ Done s0 x y (r * 8 + c) idx := fun h =>
            hd ((done_succ s0 x y r c idx hc).2 (Or.inl h))
          have hne : idx ≠ cellIndex x y r c := fun h =>
            hd ((done_succ s0 x y r c idx hc).2 (Or.inr ⟨hbit, h⟩))
          simp only [setAt, if_neg hne]
          exact hinv.gfx_rest idx h1
  · have hbit' : ¬ (s0.memory (s0.i + r) &&& (0x80 >>> c) ≠ 0) := hbit
    have hiff : ∀ idx, Done s0 x y (r * 8 + c + 1) idx ↔ Done s0 x y (r * 8 + c) idx := by
      intro idx
      rw [done_succ s0 x y r c idx hc]
      constructor
      · rintro (h | ⟨h, _⟩)
        · exact h
        · exact absurd h hbit
      · exact Or.inl
    refine ⟨s, ?_, ?_⟩
    · simp only [drawPixel, if_neg hbit']
    · refine ⟨hinv.memory_eq, hinv.i_eq, hinv.pc_eq, hinv.stack_eq, hinv.sp_eq, hinv.v_eq,
        ?_, ?_, ?_, ?_⟩
      · rintro h0 ⟨idx, hd⟩
        exact hinv.vf_set h0 ⟨idx, (hiff idx).1 hd⟩
      · rintro (h | h)
        · exact hinv.vf_clear (Or.inl h)
        · exact hinv.vf_clear (Or.inr fun ⟨idx, hd⟩ => h ⟨idx, (hiff idx).2 hd⟩)
      · intro idx hd
        exact hinv.gfx_done idx ((hiff idx).1 hd)
      · intro idx hd
        exact hinv.gfx_rest idx fun h => hd ((hiff idx).2 h)

theorem done_congr (s s' : Chip8) (x y k idx : Nat) (hm : s'.memory = s.memory)
    (hi : s'.i = s.i) : Done s' x y k idx ↔ Done s x y k idx := by
  simp only [Done, spriteBit, hm, hi]

theorem done_iff_addressed (s : Chip8) (x y n idx : Nat) :
    Done s x y (n * 8) idx ↔ addressed s x y n idx := by
  constructor
  · rintro ⟨row, col, hcol, hlt, hbit, hidx⟩
    exact ⟨row, by omega, col, hcol, hbit, hidx⟩
  · rintro ⟨row, hrow, col, hcol, hbit, hidx⟩
    exact ⟨row, col, hcol, by omega, hbit, hidx⟩

theorem drawCols_inv (s0 s : Chip8) (x y n a r : Nat) (hx : x < 16) (hy : y < 16)
    (hn : n < 16) (hr : r < n)
    (ha : ∀ idx, Done s0 x y (n * 8) idx → s0.gfx idx = a)
    (hinv : DrawInv s0 x y a (r * 8) s) (c : Nat) (hc : c ≤ 8) :
    ∃ s', forLoop c (drawPixel x y r (s0.memory (s0.i + r))) s = some s' ∧
      DrawInv s0 x y a (r * 8 + c) s' := by
  induction c with
  | zero => exact ⟨s, rfl, hinv⟩
  | succ c ih =>
    obtain ⟨s1, h1, hinv1⟩ := ih (by omega)
    obtain ⟨s2, h2, hinv2⟩ := drawPixel_inv s0 s1 x y n a r c hx hy hn hr (by omega) ha hinv1
    exact ⟨s2, by simp only [forLoop, h1, Option.some_bind, h2], hinv2⟩

theorem drawRow_inv (s0 s : Chip8) (x y n a r : Nat) (hx : x < 16) (hy : y < 16)
    (hn : n < 16) (hr : r < n) (hi : s0.i + n ≤ 4096)
    (ha : ∀ idx, Done s0 x y (n * 8) idx → s0.gfx idx = a)
    (hinv : DrawInv s0 x y a (r * 8) s) :
    ∃ s', drawRow x y r s = some s' ∧ DrawInv s0 x y a ((r + 1) * 8) s' := by
  obtain ⟨s1, h1, hinv1⟩ := drawCols_inv s0 s x y n a r hx hy hn hr ha hinv 8 (le_refl 8)
  have hb : s0.i + r < TotalMemoryBytes := by
    simp only [TotalMemoryBytes]; omega
  refine ⟨s1, ?_, ?_⟩
  · simp only [drawRow, hinv.i_eq, hinv.memory_eq, if_pos hb]
    exact h1
  · have e : (r + 1) * 8 = r * 8 + 8 := by omega
    rw [e]; exact hinv1

theorem drawRows_inv (s0 : Chip8) (x y n a : Nat) (hx : x < 16) (hy : y < 16)
    (hn : n < 16) (hi : s0.i + n ≤ 4096) (hv : s0.v 0xF = 0)
    (ha : ∀ idx, Done s0 x y (n * 8) idx → s0.gfx idx = a) (r : Nat) (hr : r ≤ n) :
    ∃ s', forLoop r (drawRow x y) s0 = some s' ∧ DrawInv s0 x y a (r * 8) s' := by
  induction r with
  | zero =>
    have hnone : ∀ idx, ¬ Done s0 x y (0 * 8) idx := by
      rintro idx ⟨row, col, _, hlt, _, _⟩
      omega
    exact ⟨s0, rfl, ⟨rfl, rfl, rfl, rfl, rfl, fun _ _ => rfl,
      fun _ ⟨idx, h⟩ => absurd h (hnone idx), fun _ => hv,
      fun idx h => absurd h (hnone idx), fun _ _ => rfl⟩⟩
  | succ r ih =>
    obtain ⟨s1, h1, hinv1⟩ := ih (by omega)
    obtain ⟨s2, h2, hinv2⟩ := drawRow_inv s0 s1 x y n a r hx hy hn (by omega) hi ha hinv1
    exact ⟨s2, by simp only [forLoop, h1, Option.some_bind, h2], hinv2⟩

theorem emulate_draw (s : Chip8) (x y n : Nat) (hx : x < 16) (hy : y < 16) (hn : n < 16)
    (hpc : s.pc + 1 < 4096) (hhi : s.memory s.pc = 0xD0 + x)
    (hlo : s.memory (s.pc + 1) = y * 16 + n) :
    EmulateCycle s = (forLoop n (drawRow x y) (drawStart s)).map drawFinish := by
  have hw : ((s.memory s.pc <<< 8) ||| s.memory (s.pc + 1)) % WordModulus
      = (0xD0 + x) * 256 + (y * 16 + n) := by
    rw [hhi, hlo]; exact fetch_word _ _ (by omega) (by omega)
  have e1 : ((0xD0 + x) * 256 + (y * 16 + n)) &&& 0xF000 = 0xD000 := by
    rw [and_F000]; omega
  have e2 : (((0xD0 + x) * 256 + (y * 16 + n)) &&& 0x0F00) >>> 8 = x := by
    rw [and_0F00_shift]; omega
  have e3 : (((0xD0 + x) * 256 + (y * 16 + n)) &&& 0x00F0) >>> 4 = y := by
    rw [and_00F0_shift]; omega
  have e4 : ((0xD0 + x) * 256 + (y * 16 + n)) &&& 0x000F = n := by
    rw [and_000F]; omega
  simp only [EmulateCycle, TotalMemoryBytes, hpc, hw, e1, e2, e3, e4, if_true]
  simp [drawStart]
  rfl

/-- Repeating a draw on the code. With I + N at most 4096 and the cells the draw
loop writes (`addressed`) clear, executing the same DXYN in two consecutive cycles
leaves the framebuffer as it was before the first draw; register 0xF is 0 after
the first draw and, when the sprite has a set bit, 1 after the second. -/
theorem draw_twice_restores (s : Chip8) (x y n : Nat) (hx : x < 16) (hy : y < 16)
    (hn : n < 16) (hpc : s.pc + 3 < 4096)
    (h1 : s.memory s.pc = 0xD0 + x) (h2 : s.memory (s.pc + 1) = y * 16 + n)
    (h3 : s.memory (s.pc + 2) = 0xD0 + x) (h4 : s.memory (s.pc + 3) = y * 16 + n)
    (hi : s.i + n ≤ 4096)
    (hclear : ∀ idx, addressed s x y n idx → s.gfx idx = 0) :
    ∃ t1 t2, EmulateCycle s = some t1 ∧ EmulateCycle t1 = some t2 ∧
      t2.gfx = s.gfx ∧ t1.v 0xF = 0 ∧
      ((∃ row col, row < n ∧ col < 8 ∧ spriteBit s row col) → t2.v 0xF = 1) := by
  -- first draw
  have hd0 : ∀ idx, Done (drawStart s) x y (n * 8) idx ↔ addressed s x y n idx := by
    intro idx
    rw [done_congr s (drawStart s) x y (n * 8) idx rfl rfl]
    exact done_iff_addressed s x y n idx
  obtain ⟨sA, hA, invA⟩ := drawRows_inv (drawStart s) x y n 0 hx hy hn hi
    (by simp [drawStart, setAt]) (fun idx hd => hclear idx ((hd0 idx).1 hd)) n (le_refl n)
  have hmA : sA.memory = s.memory := invA.memory_eq
  have hiA : sA.i = s.i := invA.i_eq
  have hpcA : (drawFinish sA).pc = s.pc + 2 := by
    show (sA.pc + 2) % WordModulus = s.pc + 2
    rw [invA.pc_eq]
    show (s.pc + 2) % WordModulus = s.pc + 2
    simp only [WordModulus]; omega
  have hstep1 : EmulateCycle s = some (drawFinish sA) := by
    rw [emulate_draw s x y n hx hy hn (by omega) h1 h2, hA]; rfl
  -- second draw
  have hd1 : ∀ idx, Done (drawStart (drawFinish sA)) x y (n * 8) idx ↔
      addressed s x y n idx := by
    intro idx
    rw [done_congr s (drawStart (drawFinish sA)) x y (n * 8) idx hmA hiA]
    exact done_iff_addressed s x y n idx
  have ha1 : ∀ idx, Done (drawStart (drawFinish sA)) x y (n * 8) idx →
      (drawStart (drawFinish sA)).gfx idx = 1 := by
    intro idx hd
    have := invA.gfx_done idx ((hd0 idx).2 ((hd1 idx).1 hd))
    simpa [ByteModulus, drawStart, drawFinish] using this
  obtain ⟨sB, hB, invB⟩ := drawRows_inv (drawStart (drawFinish sA)) x y n 1 hx hy hn
    (by show sA.i + n ≤ 4096; rw [hiA]; exact hi) (by simp [drawStart, setAt]) ha1 n
    (le_refl n)
  have hstep2 : EmulateCycle (drawFinish sA) = some (drawFinish sB) := by
    rw [emulate_draw (drawFinish sA) x y n hx hy hn (by rw [hpcA]; omega)
      (by rw [hpcA]; show sA.memory (s.pc + 2) = 0xD0 + x; rw [hmA]; exact h3)
      (by rw [hpcA]; show sA.memory (s.pc + 2 + 1) = y * 16 + n; rw [hmA]; exact h4), hB]
    rfl
  refine ⟨_, _, hstep1, hstep2, ?_, invA.vf_clear (Or.inl rfl), ?_⟩
  · funext idx
    show sB.gfx idx = s.gfx idx
    by_cases ht : addressed s x y n idx
    · rw [invB.gfx_done idx ((hd1 idx).2 ht), hclear idx ht]
      simp [ByteModulus]
    · rw [invB.gfx_rest idx (fun h => ht ((hd1 idx).1 h))]
      show sA.gfx idx = s.gfx idx
      rw [invA.gfx_rest idx (fun h => ht ((hd0 idx).1 h))]
      rfl
  · rintro ⟨row, col, hrow, hcol, hbit⟩
    exact invB.vf_set (by decide)
      ⟨cellIndex x y row col, (hd1 _).2 ⟨row, hrow, col, hcol, hbit, rfl⟩⟩

/-- Example of `draw_twice_restores`: `D1 22` executed twice from 0x200 over a clear
framebuffer with sprite bytes 0x81 0x18 at I = 0x300. -/
theorem draw_twice_restores_witness :
    ∃ t1 t2, EmulateCycle drawTwiceState = some t1 ∧ EmulateCycle t1 = some t2 ∧
      t2.gfx = drawTwiceState.gfx ∧ t1.v 0xF = 0 ∧ t2.v 0xF = 1 :=
  match draw_twice_restores drawTwiceState 1 2 2 (by decide) (by decide) (by decide)
      (by decide) (by decide) (by decide) (by decide) (by decide) (by decide)
      (fun _ _ => rfl) with
  | ⟨t1, t2, e1, e2, hg, hf1, hf2⟩ =>
    ⟨t1, t2, e1, e2, hg, hf1, hf2 ⟨0, 0, by decide, by decide, by decide⟩⟩

/-! ## Stack underflow and introspection -/

/-- C8, evaluated on the code: a return on an empty stack. With `00 0E`, the
pattern the return case is labelled with, the cycle completes normally, reads
stack slot 0 and wraps the stack pointer from 0 to 0xFFFF; with the documented
opcode `00 EE` the cycle changes nothing. Neither reports a fault. -/
theorem return_on_empty_stack_wraps :
    (EmulateCycle underflowState).map (fun t => (t.sp, t.pc)) = some (0xFFFF, 2) ∧
    (EmulateCycle underflowStateEE).map (fun t => (t.sp, t.pc)) = some (0, 0x200) := by
  decide

/-- C9: `Register` returns 0 for every index from 16 on and VR below, `Memory`
returns 0 for every address from 4096 on and the stored byte below; both are
functions of the state alone. In particular `Register(20)` and `Memory(5000)`
are 0. -/
theorem introspection_bounds (s : Chip8) (r a : Nat) :
    Register s r = (if r < 16 then s.v r else 0) ∧
    Memory s a = (if a < 4096 then s.memory a else 0) ∧
    Register s 20 = 0 ∧ Memory s 5000 = 0 := by
  refine ⟨?_, ?_, ?_, ?_⟩
  · unfold Register NumRegisers
    by_cases h : r < 16
    · rw [if_pos h, if_neg (by omega)]
    · rw [if_neg h, if_pos (by omega)]
  · unfold Memory TotalMemoryBytes
    by_cases h : a < 4096
    · rw [if_pos h, if_neg (by omega)]
    · rw [if_neg h, if_pos (by omega)]
  · simp [Register, NumRegisers]
  · simp [Memory, TotalMemoryBytes]

theorem load_at_capacity_fails (s : Chip8) (bytes : List Nat)
    (hlen : bytes.length = TotalMemoryBytes - ProgramStart) :
    (LoadProgram s (some bytes)).1 = false := by
  simp [LoadProgram, ReadProgram, hlen]

/-- Loading a program of at least 1 and fewer than `TotalMemoryBytes - ProgramStart`
bytes succeeds, copies it verbatim from 0x200 on and leaves the bytes below 0x200
unchanged. -/
theorem load_below_capacity (s : Chip8) (bytes : List Nat) (h1 : 1 ≤ bytes.length)
    (h2 : bytes.length < TotalMemoryBytes - ProgramStart) :
    (LoadProgram s (some bytes)).1 = true ∧
    (∀ k, k < bytes.length → (LoadProgram s (some bytes)).2.memory (ProgramStart + k)
        = bytes.getD k 0) ∧
    (∀ a, a < ProgramStart → (LoadProgram s (some bytes)).2.memory a = s.memory a) := by
  have hmin : min bytes.length (TotalMemoryBytes - ProgramStart) = bytes.length :=
    Nat.min_eq_left (Nat.le_of_lt h2)
  have hne : bytes.length ≠ 0 := by omega
  refine ⟨?_, ?_, ?_⟩
  · simp [LoadProgram, ReadProgram, h2, hmin, hne]
  · intro k hk
    simp [LoadProgram, ReadProgram, h2, hmin, hne, hk]
  · intro a ha
    have : ¬ ProgramStart ≤ a := by omega
    simp [LoadProgram, ReadProgram, h2, hmin, hne, this]

/-- C11, evaluated on the code: a program of exactly 4096 - 0x200 = 3584 bytes
loaded into a freshly reset machine. `fread` delivers all 3584 bytes without
running out of file, the end-of-file indicator stays clear, `ReadProgram` returns
0 and `LoadProgram` reports failure. -/
theorem load_full_size_program_fails :
    fullSizeProgram.length = 4096 - 0x200 ∧
    (LoadProgram (Initialize exampleFont (machine (fun _ => 0) (fun _ => 0) 0))
      (some fullSizeProgram)).1 = false :=
  ⟨List.length_replicate 3584 0x60,
   load_at_capacity_fails _ _ (List.length_replicate 3584 0x60)⟩

/-! ## One cycle: frame of the draw loops, summary and definedness -/

theorem forLoop_preserves {σ : Type} (P : σ → Prop) (body : Nat → σ → Option σ)
    (hbody : ∀ k s t, P s → body k s = some t → P t) :
    ∀ n s t, P s → forLoop n body s = some t → P t := by
  intro n
  induction n with
  | zero =>
    intro s t hs h
    simp only [forLoop, Option.some.injEq] at h
    exact h ▸ hs
  | succ n ih =>
    intro s t hs h
    simp only [forLoop] at h
    cases hmid : forLoop n body s with
    | none => rw [hmid] at h; simp at h
    | some u =>
      rw [hmid] at h
      exact hbody n u t (ih s u hs hmid) h

theorem drawPixel_frame (s0 : Chip8) (x y row pixel col : Nat) (s t : Chip8)
    (hs : drawFrame s0 s) (h : drawPixel x y row pixel col s = some t) : drawFrame s0 t := by
  unfold drawPixel at h
  by_cases hb : pixel &&& (0x80 >>> col) ≠ 0
  · rw [if_pos hb] at h
    by_cases hi : x + col + (y + row) * ScreenHeight < ScreenWidth * ScreenHeight
    · simp only [if_pos hi, Option.some.injEq] at h
      rw [← h]
      by_cases hg : s.gfx (x + col + (y + row) * ScreenHeight) ≠ 0
      · simp only [if_pos hg]; exact hs
      · simp only [if_neg hg]; exact hs
    · simp only [if_neg hi] at h
      exact absurd h (by simp)
  · rw [if_neg hb, Option.some.injEq] at h
    exact h ▸ hs

theorem drawRow_frame (s0 : Chip8) (x y row : Nat) (s t : Chip8)
    (hs : drawFrame s0 s) (h : drawRow x y row s = some t) : drawFrame s0 t := by
  unfold drawRow at h
  by_cases hb : s.i + row < TotalMemoryBytes
  · rw [if_pos hb] at h
    exact forLoop_preserves (drawFrame s0) _
      (fun k u w hu hw => drawPixel_frame s0 x y row _ k u w hu hw) 8 s t hs h
  · rw [if_neg hb] at h
    exact absurd h (by simp)

theorem drawRows_frame (x y n : Nat) (s t : Chip8)
    (h : forLoop n (drawRow x y) s = some t) : drawFrame s t :=
  forLoop_preserves (drawFrame s) _
    (fun k u w hu hw => drawRow_frame s x y k u w hu hw) n s t
    ⟨rfl, rfl, rfl, rfl, rfl, rfl, rfl⟩ h


theorem step_summary (s t : Chip8) (h : EmulateCycle s = some t) :
    (t.draw = true ↔ fetchOp s &&& 0xF000 = 0xD000) ∧
    (t.pc = s.pc ∨ t.pc = (s.pc + 2) % WordModulus ∨
      t.pc = ((s.pc + 2) % WordModulus + 2) % WordModulus ∨
      (fetchOp s &&& 0xF000 = 0x0000 ∧ t.pc = (s.stack s.sp + 2) % WordModulus) ∨
      (fetchOp s &&& 0xF000 = 0x2000 ∧ t.pc = fetchOp s &&& 0x0FFF)) ∧
    (t.stack = s.stack ∨
      (fetchOp s &&& 0xF000 = 0x2000 ∧ t.stack = setAt s.stack s.sp s.pc)) := by
  unfold EmulateCycle at h
  simp only [] at h
  rw [show ((s.memory s.pc <<< 8 ||| s.memory (s.pc + 1)) % WordModulus) = fetchOp s from rfl]
    at h
  generalize fetchOp s = op at h ⊢
  by_cases hb : s.pc + 1 < TotalMemoryBytes
  swap
  · rw [if_neg hb] at h; exact absurd h (by simp)
  rw [if_pos hb] at h
  by_cases c0 : op &&& 0xF000 = 0x0000
  · rw [if_pos c0] at h
    by_cases c0e : op &&& 0x00FF = 0x000E
    · rw [if_pos c0e] at h
      by_cases hsp : s.sp < StackSize
      · rw [if_pos hsp] at h
        obtain rfl := Option.some.inj h
        exact ⟨by simp [c0], Or.inr (Or.inr (Or.inr (Or.inl ⟨c0, rfl⟩))), Or.inl rfl⟩
      · rw [if_neg hsp] at h; exact absurd h (by simp)
    · rw [if_neg c0e] at h
      obtain rfl := Option.some.inj h
      exact ⟨by simp [c0], Or.inl rfl, Or.inl rfl⟩
  rw [if_neg c0] at h
  by_cases c2 : op &&& 0xF000 = 0x2000
  · rw [if_pos c2] at h
    by_cases hsp : s.sp < StackSize
    · rw [if_pos hsp] at h
      obtain rfl := Option.some.inj h
      exact ⟨by simp [c2], Or.inr (Or.inr (Or.inr (Or.inr ⟨c2, rfl⟩))), Or.inr ⟨c2, rfl⟩⟩
    · rw [if_neg hsp] at h; exact absurd h (by simp)
  rw [if_neg c2] at h
  by_cases c6 : op &&& 0xF000 = 0x6000
  · rw [if_pos c6] at h
    obtain rfl := Option.some.inj h
    exact ⟨by simp [c6], Or.inr (Or.inl rfl), Or.inl rfl⟩
  rw [if_neg c6] at h
  by_cases c8 : op &&& 0xF000 = 0x8000
  · rw [if_pos c8] at h
    obtain rfl := Option.some.inj h
    refine ⟨?_, Or.inr (Or.inl ?_), Or.inl ?_⟩
    · simp only [c8]; split_ifs <;> simp
    · show (_ + 2) % WordModulus = _; split_ifs <;> rfl
    · show Chip8.stack _ = _; split_ifs <;> rfl
  rw [if_neg c8] at h
  by_cases cA : op &&& 0xF000 = 0xA000
  · rw [if_pos cA] at h
    obtain rfl := Option.some.inj h
    exact ⟨by simp [cA], Or.inr (Or.inl rfl), Or.inl rfl⟩
  rw [if_neg cA] at h
  by_cases cD : op &&& 0xF000 = 0xD000
  · rw [if_pos cD] at h
    cases hloop : forLoop (op &&& 0x000F)
        (drawRow ((op &&& 0x0F00) >>> 8) ((op &&& 0x00F0) >>> 4))
        { s with draw := false, v := setAt s.v 0xF 0 } with
    | none => rw [hloop] at h; exact absurd h (by simp)
    | some u =>
      rw [hloop] at h
      obtain rfl := Option.some.inj h
      obtain ⟨_, _, hpc, hst, _, _, _⟩ := drawRows_frame _ _ _ _ _ hloop
      refine ⟨by simp [cD], Or.inr (Or.inl ?_), Or.inl ?_⟩
      · show (u.pc + 2) % WordModulus = _; rw [hpc]
      · show u.stack = _; rw [hst]
  rw [if_neg cD] at h
  by_cases cE : op &&& 0xF000 = 0xE000
  · rw [if_pos cE] at h
    obtain rfl := Option.some.inj h
    refine ⟨?_, ?_, Or.inl ?_⟩
    · simp only [cE]; split_ifs <;> simp
    · show _ ∨ (_ + 2) % WordModulus = _ ∨ (_ + 2) % WordModulus = _ ∨ _
      split_ifs
      · exact Or.inr (Or.inr (Or.inl rfl))
      · exact Or.inr (Or.inl rfl)
      · exact Or.inr (Or.inr (Or.inl rfl))
      · exact Or.inr (Or.inl rfl)
      · exact Or.inr (Or.inl rfl)
    · show Chip8.stack _ = _; split_ifs <;> rfl
  rw [if_neg cE] at h
  by_cases cF : op &&& 0xF000 = 0xF000
  · rw [if_pos cF] at h
    by_cases c33 : op &&& 0x00FF = 0x0033
    · rw [if_pos c33] at h
      by_cases hi : s.i + 2 < TotalMemoryBytes
      · rw [if_pos hi] at h
        obtain rfl := Option.some.inj h
        exact ⟨by simp [cF], Or.inr (Or.inl rfl), Or.inl rfl⟩
      · rw [if_neg hi] at h; exact absurd h (by simp)
    · rw [if_neg c33] at h
      obtain rfl := Option.some.inj h
      exact ⟨by simp [cF], Or.inr (Or.inl rfl), Or.inl rfl⟩
  rw [if_neg cF] at h
  obtain rfl := Option.some.inj h
  exact ⟨by simp [cD], Or.inl rfl, Or.inl rfl⟩

theorem forLoop_defined {σ : Type} (P : σ → Prop) (n : Nat) (body : Nat → σ → Option σ)
    (hbody : ∀ k s, k < n → P s → ∃ t, body k s = some t ∧ P t) (s : σ) (hs : P s) :
    ∀ m, m ≤ n → ∃ t, forLoop m body s = some t ∧ P t := by
  intro m
  induction m with
  | zero => exact fun _ => ⟨s, rfl, hs⟩
  | succ m ih =>
    intro hm
    obtain ⟨u, hu, hPu⟩ := ih (by omega)
    obtain ⟨t, ht, hPt⟩ := hbody m u (by omega) hPu
    exact ⟨t, by simp only [forLoop, hu, Option.some_bind, ht], hPt⟩

theorem drawPixel_defined (x y row pixel col : Nat) (s : Chip8) (hx : x < 16) (hy : y < 16)
    (hrow : row < 16) (hcol : col < 8) :
    ∃ t, drawPixel x y row pixel col s = some t ∧ t.i = s.i := by
  have hidx : x + col + (y + row) * ScreenHeight < ScreenWidth * ScreenHeight := by
    simp only [ScreenHeight, ScreenWidth]; omega
  unfold drawPixel
  by_cases hb : pixel &&& (0x80 >>> col) ≠ 0
  · rw [if_pos hb]
    simp only [if_pos hidx]
    refine ⟨_, rfl, ?_⟩
    by_cases hg : s.gfx (x + col + (y + row) * ScreenHeight) ≠ 0
    · simp only [if_pos hg]
    · simp only [if_neg hg]
  · rw [if_neg hb]
    exact ⟨s, rfl, rfl⟩

theorem drawRow_defined (x y row i0 : Nat) (s : Chip8) (hx : x < 16) (hy : y < 16)
    (hrow : row < 16) (hi : i0 + row < 4096) (hs : s.i = i0) :
    ∃ t, drawRow x y row s = some t ∧ t.i = i0 := by
  have hb : s.i + row < TotalMemoryBytes := by
    rw [hs]; simp only [TotalMemoryBytes]; exact hi
  unfold drawRow
  rw [if_pos hb]
  exact forLoop_defined (fun u => u.i = i0) 8 _
    (fun k u hk hu => by
      obtain ⟨t, ht, hti⟩ := drawPixel_defined x y row (s.memory (s.i + row)) k u hx hy hrow hk
      exact ⟨t, ht, hti.trans hu⟩) s hs 8 (le_refl 8)

/-- A cycle completes whenever the indices it can use are in range: the fetch
(PC + 1 below 4096), the stack slot (sp below 16) and the bytes from I on
(I + 15 below 4096). -/
theorem step_defined (s : Chip8) (hpc : s.pc + 1 < 4096) (hsp : s.sp < 16)
    (hi : s.i + 15 < 4096) : ∃ t, EmulateCycle s = some t := by
  have hb : s.pc + 1 < TotalMemoryBytes := hpc
  have hs : s.sp < StackSize := hsp
  have hi2 : s.i + 2 < TotalMemoryBytes := by simp only [TotalMemoryBytes]; omega
  unfold EmulateCycle
  simp only []
  rw [show ((s.memory s.pc <<< 8 ||| s.memory (s.pc + 1)) % WordModulus) = fetchOp s from rfl]
  generalize fetchOp s = op
  rw [if_pos hb]
  by_cases c0 : op &&& 0xF000 = 0x0000
  · rw [if_pos c0, if_pos hs]
    by_cases c0e : op &&& 0x00FF = 0x000E
    · rw [if_pos c0e]; exact ⟨_, rfl⟩
    · rw [if_neg c0e]; exact ⟨_, rfl⟩
  rw [if_neg c0]
  by_cases c2 : op &&& 0xF000 = 0x2000
  · rw [if_pos c2, if_pos hs]; exact ⟨_, rfl⟩
  rw [if_neg c2]
  by_cases c6 : op &&& 0xF000 = 0x6000
  · rw [if_pos c6]; exact ⟨_, rfl⟩
  rw [if_neg c6]
  by_cases c8 : op &&& 0xF000 = 0x8000
  · rw [if_pos c8]; exact ⟨_, rfl⟩
  rw [if_neg c8]
  by_cases cA : op &&& 0xF000 = 0xA000
  · rw [if_pos cA]; exact ⟨_, rfl⟩
  rw [if_neg cA]
  by_cases cD : op &&& 0xF000 = 0xD000
  · rw [if_pos cD]
    have hx : (op &&& 0x0F00) >>> 8 < 16 := by rw [and_0F00_shift]; omega
    have hy : (op &&& 0x00F0) >>> 4 < 16 := by rw [and_00F0_shift]; omega
    have hn : op &&& 0x000F < 16 := by rw [and_000F]; omega
    obtain ⟨u, hu, _⟩ := forLoop_defined (fun u : Chip8 => u.i = s.i) (op &&& 0x000F)
      (drawRow ((op &&& 0x0F00) >>> 8) ((op &&& 0x00F0) >>> 4))
      (fun k u hk hu => drawRow_defined _ _ k s.i u hx hy (by omega) (by omega) hu)
      { s with draw := false, v := setAt s.v 0xF 0 } rfl (op &&& 0x000F) (le_refl _)
    rw [hu]; exact ⟨_, rfl⟩
  rw [if_neg cD]
  by_cases cE : op &&& 0xF000 = 0xE000
  · rw [if_pos cE]; exact ⟨_, rfl⟩
  rw [if_neg cE]
  by_cases cF : op &&& 0xF000 = 0xF000
  · rw [if_pos cF, if_pos hi2]
    by_cases c33 : op &&& 0x00FF = 0x0033
    · rw [if_pos c33]; exact ⟨_, rfl⟩
    · rw [if_neg c33]; exact ⟨_, rfl⟩
  rw [if_neg cF]
  exact ⟨_, rfl⟩

/-- C12: the redraw flag tracks draws exactly. After a completed cycle the flag
is true if and only if the opcode fetched in that cycle is a sprite draw (DXYN),
and the cycle does not depend on the value the flag had before. -/
theorem redraw_flag_tracks_draw (s t : Chip8) (h : EmulateCycle s = some t) :
    (t.draw = true ↔ fetchOp s &&& 0xF000 = 0xD000) ∧
    ∀ b, EmulateCycle { s with draw := b } = EmulateCycle s :=
  ⟨(step_summary s t h).1, fun _ => rfl⟩

/-- C12 at a draw (`D0 01` after reset and load, flag false before) and at a
non-draw (`60 05`, flag true before). -/
theorem redraw_flag_tracks_draw_witness :
    (∃ t, EmulateCycle (loaded drawProgram) = some t ∧ t.draw = true) ∧
    (∃ t, EmulateCycle { setImmediateState with draw := true } = some t ∧ t.draw = false) := by
  constructor
  · obtain ⟨t, ht⟩ := Option.isSome_iff_exists.1
      (show (EmulateCycle (loaded drawProgram)).isSome = true by decide)
    exact ⟨t, ht, (redraw_flag_tracks_draw _ t ht).1.2 (by decide)⟩
  · obtain ⟨t, ht⟩ := Option.isSome_iff_exists.1
      (show (EmulateCycle { setImmediateState with draw := true }).isSome = true by decide)
    refine ⟨t, ht, ?_⟩
    have hnot : ¬ t.draw = true := fun hd =>
      absurd ((redraw_flag_tracks_draw _ t ht).1.1 hd) (by decide)
    simpa using hnot

/-! ## Reset -/

/-- Members that `Initialize` does reset. For every machine state it yields
PC = 0x200, stack pointer 0, index register 0, all 16 general registers 0, both
timers 0, all 16 keys unpressed, all 2048 framebuffer cells 0, redraw flag false,
the font bytes from address 0 on and 0 in every memory byte beyond the font;
applying it twice gives the same state as applying it once. -/
theorem initialize_canonical (Font : Nat → Nat) (s : Chip8) :
    (Initialize Font s).pc = 0x200 ∧ (Initialize Font s).sp = 0 ∧
    (Initialize Font s).i = 0 ∧
    (∀ r, r < 16 → (Initialize Font s).v r = 0) ∧
    (Initialize Font s).delayTimer = 0 ∧ (Initialize Font s).soundTimer = 0 ∧
    (∀ k, k < 16 → (Initialize Font s).keys k = 0) ∧
    (∀ k, k < 2048 → (Initialize Font s).gfx k = 0) ∧
    (Initialize Font s).draw = false ∧
    (∀ a, a < NumFontChars → (Initialize Font s).memory a = Font a) ∧
    (∀ a, NumFontChars ≤ a → a < 4096 → (Initialize Font s).memory a = 0) ∧
    Initialize Font (Initialize Font s) = Initialize Font s := by
  refine ⟨rfl, rfl, rfl, ?_, rfl, rfl, ?_, ?_, rfl, ?_, ?_, ?_⟩
  · intro r hr
    simp [Initialize, NumRegisers, hr]
  · intro k hk
    simp [Initialize, NumKeys, hk]
  · intro k hk
    simp [Initialize, ScreenWidth, ScreenHeight, hk]
  · intro a ha
    simp [Initialize, ha]
  · intro a h1 h2
    simp [Initialize, TotalMemoryBytes, Nat.not_lt.2 h1, h2]
  · simp only [Initialize]
    congr 1 <;> funext k <;> split_ifs <;> rfl

/-- Stack slots 8 to 15 are not touched by `Initialize`: `memset(_stack, 0,
StackSize)` clears 16 bytes, which is the first 8 two-byte slots. -/
theorem initialize_keeps_upper_stack (Font : Nat → Nat) (s : Chip8) (k : Nat) (hk : 8 ≤ k) :
    (Initialize Font s).stack k = s.stack k := by
  have : ¬ StackSlotBytes * (k + 1) ≤ StackSize := by
    simp only [StackSlotBytes, StackSize]; omega
  simp [Initialize, this]

/-! ## Invariants over runs -/

/-- C14, evaluated on the code: after reset and load, one cycle executing `00 0E`
on the empty stack leaves the stack pointer at 0xFFFF; sixteen nested calls leave
it at 16, outside [0, 16), and the seventeenth call indexes `_stack` at 16, out
of bounds. -/
theorem stack_pointer_leaves_range :
    (loaded returnProgram).sp = 0 ∧
    (run 1 (loaded returnProgram)).map (fun t => t.sp) = some 0xFFFF ∧
    (run 16 (loaded nestedCallsProgram)).map (fun t => t.sp) = some 16 ∧
    (run 17 (loaded nestedCallsProgram)).isNone = true := by
  decide

/-- C15 fails on the code: after reset and load of `22 01`, the program counter is
0x200 and one cycle, a call to 0x201, leaves it odd. -/
theorem odd_call_breaks_alignment :
    (loaded oddCallProgram).pc = 0x200 ∧
    (run 1 (loaded oddCallProgram)).map (fun t => t.pc % 2) = some 1 := by
  decide

theorem step_keeps_even (s t : Chip8) (hpc : s.pc % 2 = 0)
    (hstack : ∀ k, s.stack k % 2 = 0) (hcall : ¬ oddCall s)
    (h : EmulateCycle s = some t) :
    t.pc % 2 = 0 ∧ ∀ k, t.stack k % 2 = 0 := by
  obtain ⟨_, hp, hst⟩ := step_summary s t h
  constructor
  · rcases hp with hp | hp | hp | ⟨_, hp⟩ | ⟨hc, hp⟩
    · rw [hp]; exact hpc
    · rw [hp]; simp only [WordModulus]; omega
    · rw [hp]; simp only [WordModulus]; omega
    · rw [hp]; have := hstack s.sp; simp only [WordModulus]; omega
    · rw [hp]
      have : ¬ (fetchOp s &&& 0x0FFF) % 2 = 1 := fun h1 => hcall ⟨hc, h1⟩
      omega
  · intro k
    rcases hst with hst | ⟨_, hst⟩
    · rw [hst]; exact hstack k
    · rw [hst]
      by_cases hk : k = s.sp
      · simp only [setAt, if_pos hk]; exact hpc
      · simp only [setAt, if_neg hk]; exact hstack k

theorem run_keeps_even (init : Chip8) (hpc : init.pc % 2 = 0)
    (hstack : ∀ k, init.stack k % 2 = 0) (n : Nat)
    (hcalls : ∀ k u, k < n → run k init = some u → ¬ oddCall u) (s : Chip8)
    (hrun : run n init = some s) :
    s.pc % 2 = 0 ∧ ∀ k, s.stack k % 2 = 0 := by
  induction n generalizing s with
  | zero =>
    simp only [run, Option.some.injEq] at hrun
    subst hrun
    exact ⟨hpc, hstack⟩
  | succ n ih =>
    simp only [run] at hrun
    cases hmid : run n init with
    | none => rw [hmid] at hrun; exact absurd hrun (by simp)
    | some u =>
      rw [hmid] at hrun
      obtain ⟨hu1, hu2⟩ := ih (fun k w hk hw => hcalls k w (by omega) hw) u hmid
      exact step_keeps_even u s hu1 hu2 (hcalls n u (by omega) hmid) hrun

/-- C15 as amended: from a state with PC = 0x200 whose stack slots hold even
values, in a run that executes no call to an odd address, the program counter is
even after each completed cycle. -/
theorem pc_even_without_odd_calls (init : Chip8) (n : Nat) (s : Chip8)
    (hpc : init.pc = ProgramStart) (hstack : ∀ k, init.stack k % 2 = 0)
    (hcalls : ∀ k u, k < n → run k init = some u → ¬ oddCall u)
    (hrun : run n init = some s) : s.pc % 2 = 0 :=
  (run_keeps_even init (by rw [hpc]; rfl) hstack n hcalls s hrun).1

/-- C15 as amended, at two cycles after reset and load of a call to 0x204
followed there by `60 05`. -/
theorem pc_even_without_odd_calls_witness :
    ∃ s, run 2 (loaded evenCallProgram) = some s ∧ s.pc % 2 = 0 := by
  obtain ⟨s, hs⟩ := Option.isSome_iff_exists.1
    (show (run 2 (loaded evenCallProgram)).isSome = true by decide)
  refine ⟨s, hs, pc_even_without_odd_calls (loaded evenCallProgram) 2 s rfl
    (fun k => by
      show (if StackSlotBytes * (k + 1) ≤ StackSize then 0 else 0) % 2 = 0
      split_ifs <;> rfl) ?_ hs⟩
  intro k u hk hu
  have hall : ∀ j, j < 2 →
      (run j (loaded evenCallProgram)).all (fun w => decide (¬ oddCall w)) = true := by
    decide
  have := hall k hk
  rw [hu] at this
  simpa using this

/-! ## Keys, BCD and the carry flag -/

/-- C16, evaluated on the code: V1 = 5, key 5 pressed, key 1 not pressed. `E1 9E`
should skip (PC = 0x204) and `E1 A1` should not (PC = 0x202); the cycle tests
`_keys[1]`, the key numbered by the register index, and does the opposite. -/
theorem key_skip_uses_register_number :
    (EmulateCycle keySkipState).map (fun t => t.pc) = some 0x202 ∧
    (EmulateCycle keySkipNotState).map (fun t => t.pc) = some 0x204 := by
  decide

/-- C17: BCD decomposition (FX33). With I + 2 below 4096 and VX a byte, after the
cycle the bytes at I, I + 1 and I + 2 are decimal digits d0, d1, d2 with
100 * d0 + 10 * d1 + d2 = VX, every other memory byte and every register is
unchanged and the program counter has advanced by 2. -/
theorem bcd_step (s : Chip8) (x : Nat) (hx : x < 16) (hpc : s.pc + 1 < 4096)
    (hhi : s.memory s.pc = 0xF0 + x) (hlo : s.memory (s.pc + 1) = 0x33)
    (hi : s.i + 2 < 4096) (hv : s.v x < 256) :
    ∃ t, EmulateCycle s = some t ∧
      t.memory s.i < 10 ∧ t.memory (s.i + 1) < 10 ∧ t.memory (s.i + 2) < 10 ∧
      100 * t.memory s.i + 10 * t.memory (s.i + 1) + t.memory (s.i + 2) = s.v x ∧
      (∀ a, a ≠ s.i → a ≠ s.i + 1 → a ≠ s.i + 2 → t.memory a = s.memory a) ∧
      t.v = s.v ∧ t.pc = s.pc + 2 := by
  have hw : ((s.memory s.pc <<< 8) ||| s.memory (s.pc + 1)) % WordModulus
      = (0xF0 + x) * 256 + 0x33 := by
    rw [hhi, hlo]; exact fetch_word _ _ (by omega) (by omega)
  have e1 : ((0xF0 + x) * 256 + 0x33) &&& 0xF000 = 0xF000 := by rw [and_F000]; omega
  have e2 : (((0xF0 + x) * 256 + 0x33) &&& 0x0F00) >>> 8 = x := by
    rw [and_0F00_shift]; omega
  have e3 : ((0xF0 + x) * 256 + 0x33) &&& 0x00FF = 0x33 := by rw [and_00FF]; omega
  have hpc2 : (s.pc + 2) % WordModulus = s.pc + 2 := by
    simp only [WordModulus]; omega
  have hi2 : s.i + 2 < TotalMemoryBytes := hi
  have hb : s.pc + 1 < TotalMemoryBytes := hpc
  have d0 : (s.v x / 100) % ByteModulus = s.v x / 100 := by
    simp only [ByteModulus]; omega
  have d1 : ((s.v x / 10) % 10) % ByteModulus = (s.v x / 10) % 10 := by
    simp only [ByteModulus]; omega
  have d2 : ((s.v x % 100) % 10) % ByteModulus = (s.v x % 100) % 10 := by
    simp only [ByteModulus]; omega
  refine ⟨{ s with draw := false,
                   memory := setAt (setAt (setAt s.memory s.i (s.v x / 100)) (s.i + 1)
                     ((s.v x / 10) % 10)) (s.i + 2) ((s.v x % 100) % 10),
                   pc := s.pc + 2 }, ?_, ?_⟩
  · simp only [EmulateCycle, hb, hi2, hw, e1, e2, e3, hpc2, d0, d1, d2, if_true]
    simp
  · have n1 : s.i ≠ s.i + 1 := by omega
    have n2 : s.i ≠ s.i + 2 := by omega
    have n3 : s.i + 1 ≠ s.i + 2 := by omega
    refine ⟨?_, ?_, ?_, ?_, ?_, rfl, rfl⟩
    · simp only [setAt, if_neg n2, if_neg n1, if_true]; omega
    · simp only [setAt, if_neg n3, if_true]; omega
    · simp only [setAt, if_true]; omega
    · simp only [setAt, if_neg n2, if_neg n1, if_neg n3, if_true]; omega
    · intro a h0 h1 h2
      simp only [setAt, if_neg h0, if_neg h1, if_neg h2]

/-- C17 at `F3 33` with V3 = 254 and I = 0x300: the digits stored are 2, 5, 4. -/
theorem bcd_step_witness :
    ∃ t, EmulateCycle bcdState = some t ∧ 100 * t.memory 0x300 + 10 * t.memory 0x301
      + t.memory 0x302 = 254 ∧ t.pc = 0x202 :=
  match bcd_step bcdState 3 (by decide) (by decide) (by decide) (by decide) (by decide)
      (by decide) with
  | ⟨t, h, _, _, _, hsum, _, _, hp⟩ => ⟨t, h, hsum, hp⟩

/-- C18, evaluated on the code: `8F 04` with VF = 1 and V0 = 2. The sum is 3, so
the flag should be 0; the cycle writes the flag 0 into VF and then adds V0 to
VF, leaving 2. -/
theorem carry_flag_overwritten_by_sum :
    (EmulateCycle addIntoFlagState).map (fun t => t.v 0xF) = some 2 := by
  decide

/-! ## Memory bounds and pixel addressing -/

/-- C19, evaluated on the code: after reset and load, `2F FF` sets the program
counter to 0xFFF, so the next fetch reads address 0x1000, outside memory; after
`AF FF`, the BCD store `F0 33` writes addresses 0x1000 and 0x1001. -/
theorem fetch_and_store_leave_memory :
    (run 1 (loaded callLastByteProgram)).map (fun t => t.pc + 1) = some 4096 ∧
    (run 2 (loaded callLastByteProgram)).isNone = true ∧
    (run 1 (loaded bcdAtLastByteProgram)).map (fun t => (t.pc, t.i + 1)) = some (0x202, 4096) ∧
    (run 2 (loaded bcdAtLastByteProgram)).isNone = true := by
  decide

/-- C20, evaluated on the code: the different in-range coordinates (32, 0) and
(0, 1) both read framebuffer byte 32, so with that single byte set `Pixel` is
non-zero at both. -/
theorem pixel_aliases_across_rows :
    Pixel singleCellState 32 0 = some 1 ∧ Pixel singleCellState 0 1 = some 1 := by
  decide

/-! ## Framebuffer cells the draw never reaches -/

set_option maxRecDepth 1000000 in
/-- C7, evaluated on the code: after reset and load, four cycles set V1 = 10,
V2 = 3, I = 0x20C and draw once, leaving every framebuffer cell 0 or 1, cell 65
set and the cell at column 10, row 3 (index 202 in the 64-wide grid, 106 with the
stride of `Pixel`) clear. The next two cycles execute the same `D1 21` over the
sprite byte 0x80: register 0xF is 1 after the first and 0 after the second, the
reverse of the claim; cell 65 is cleared and set again. -/
theorem draw_twice_flags_reversed :
    (run 4 (loaded collisionProgram)).map (fun t => (t.pc, t.i, t.v 1, t.v 2))
      = some (0x208, 0x20C, 10, 3) ∧
    (run 4 (loaded collisionProgram)).all
      (fun t => (List.range 2048).all (fun k => decide (t.gfx k = 0 ∨ t.gfx k = 1))) = true ∧
    (run 4 (loaded collisionProgram)).map (fun t => (t.gfx 202, t.gfx 106, t.gfx 65))
      = some (0, 0, 1) ∧
    (run 5 (loaded collisionProgram)).map (fun t => (t.v 0xF, t.gfx 65)) = some (1, 0) ∧
    (run 6 (loaded collisionProgram)).map (fun t => (t.v 0xF, t.gfx 65)) = some (0, 1) := by
  decide

theorem initialize_clears_lower_stack (Font : Nat → Nat) (s : Chip8) (k : Nat) (hk : k < 8) :
    (Initialize Font s).stack k = 0 := by
  have : StackSlotBytes * (k + 1) ≤ StackSize := by
    simp only [StackSlotBytes, StackSize]; omega
  simp [Initialize, this]

/-- C13, evaluated on the code: two histories, a machine that ran nine nested
calls (stack slot 8 holds the return address 0x210) and the same machine before
it ran. `Initialize` leaves slot 8 at 0x210 in the first and at 0 in the second,
so the reset state is not one canonical state. -/
theorem reset_keeps_stack_history :
    (run 9 (loaded nestedCallsProgram)).map (fun t => t.stack 8) = some 0x210 ∧
    (run 9 (loaded nestedCallsProgram)).map (fun t => (Initialize exampleFont t).stack 8)
      = some 0x210 ∧
    (Initialize exampleFont (loaded nestedCallsProgram)).stack 8 = 0 := by
  decide

end Chip8Model
